import Mathlib

/-!
Shallow embedding of the computational core of the fund-tracking app
(fee arithmetic, period-return math, cache TTL semantics, trading-time
check, chart data preparation, holding profit recomputation).

Numeric values are modelled as exact rationals (ℚ). JavaScript
`Math.round(x*100)/100` and `toFixed(2)` are modelled by `round2`
(round half toward +∞ at the second decimal, matching `Math.round`).
Calendar dates and wall-clock instants are modelled as integers
(day indices, resp. milliseconds/abstract ticks), with `≤` mirroring
the `Date` comparisons of the source.
-/

namespace FundApp

/-- Round a rational to two decimal places, as `Math.round(x*100)/100`. -/
def round2 (q : ℚ) : ℚ := (round (q * 100) : ℤ) / 100

/-- From `src/src/api/fund.ts` (`calculateDailyServiceFee`): daily C-class
service fee; fees in the open interval (0, 0.01) are bumped to 0.01,
everything else is rounded to two decimals. -/
def calculateDailyServiceFee (shares netValue annualRate : ℚ) : ℚ :=
  let value := shares * netValue
  let dailyRate := annualRate / 365 / 100
  let fee := value * dailyRate
  if fee < 1/100 ∧ 0 < fee then 1/100 else round2 fee

/-! From `src/unnamed/part_010` (`CacheManager`): an in-memory TTL cache.
The mutable `Map` is modelled as a function from keys to optional items;
`Date.now()` instants are integer parameters. `get` deletes an expired
entry as a side effect in the source; since wall-clock time is
non-decreasing this deletion is invisible to later `get` results, so the
state is modelled as unchanged by `get`. -/

/-- One cache entry: stored data, the `Date.now()` at `set` time, and the
time-to-live in milliseconds. -/
structure CacheItem (α : Type) where
  data : α
  timestamp : Int
  ttl : Int

/-- The cache's key-value map. -/
def CacheState (α : Type) := String → Option (CacheItem α)

/-- `CacheManager.set`: overwrite the entry for `key` with fresh data,
timestamp and ttl; all other keys are untouched (no eviction). -/
def cacheSet {α : Type} (s : CacheState α) (key : String) (d : α)
    (now ttlMs : Int) : CacheState α :=
  fun k => if k = key then some ⟨d, now, ttlMs⟩ else s k

/-- `CacheManager.get`: return the stored data unless the entry is absent
or `now - timestamp > ttl` (expired). -/
def cacheGet {α : Type} (s : CacheState α) (key : String) (now : Int) :
    Option α :=
  match s key with
  | none => none
  | some item => if item.ttl < now - item.timestamp then none else some item.data

/-- From `src/src/api/tiantianApi.ts` (`isTradingTime`): weekday check plus
the 9:30–15:00 market-open window, as a function of the current day-of-week
(`Date.getDay()`, 0 = Sunday), hour and minute. -/
def isTradingTime (day hour minute : Nat) : Bool :=
  let isWeekday := decide (1 ≤ day) && decide (day ≤ 5)
  let isMarketOpen :=
    (decide (9 < hour) || (decide (hour = 9) && decide (30 ≤ minute)))
      && decide (hour < 15)
  isWeekday && isMarketOpen

/-- From `src/src/components/OKXChart.vue` (`drawChart`): min/max of the
series values, widened by `margin = (max - min) * 0.1 || 0.01` on each side
(the JavaScript `|| 0.01` replaces a zero margin by 0.01). `none` for an
empty series, which `drawChart` returns on before reaching this code. -/
def yAxisRange (values : List ℚ) : Option (ℚ × ℚ) :=
  match values.min?, values.max? with
  | some minValue, some maxValue =>
    let margin :=
      if (maxValue - minValue) * (1/10) = 0 then 1/100
      else (maxValue - minValue) * (1/10)
    some (minValue - margin, maxValue + margin)
  | _, _ => none

/-! From `src/unnamed/part_011` (`calculatePeriodReturns`): period returns
computed from the newest-first net-value history. Record dates and the
current instant are integer day indices; `new Date(record.date) <=
targetDate` becomes `record.date ≤ now - w` because record dates carry no
time of day. -/

/-- One `(date, net value)` sample of the fund's history (a
`NetValueRecord`), with the numeric fields already parsed. -/
structure NetValueRecord where
  date : Int
  netValue : ℚ
deriving DecidableEq, Repr

/-- One entry of the period-return result: the lookback window in days and
the percentage change. -/
structure PeriodReturn where
  days : Int
  change : ℚ
deriving DecidableEq, Repr

/-- The five lookback windows of the `periods` table (1w/1m/3m/6m/1y). -/
def periodsDays : List Int := [7, 30, 90, 180, 365]

/-- The per-window body of the loop in `calculatePeriodReturns`: walk the
newest-first history for the first record dated at or before `now - w`
(the `break` on the first match is `List.find?`), and emit the rounded
percentage change only when that record's net value is positive. -/
def periodEntry (history : List NetValueRecord) (now : Int)
    (latest : NetValueRecord) (w : Int) : Option PeriodReturn :=
  match history.find? (fun r => decide (r.date ≤ now - w)) with
  | some found =>
    if 0 < found.netValue then
      some ⟨w, round2 ((latest.netValue - found.netValue) / found.netValue * 100)⟩
    else none
  | none => none

/-- `calculatePeriodReturns` (pure core, the cache and fetch layers
aside): empty result for a history of fewer than two records or a
non-positive latest net value, otherwise one optional entry per window. -/
def calculatePeriodReturns (history : List NetValueRecord) (now : Int) :
    List PeriodReturn :=
  if history.length < 2 then []
  else
    match history with
    | [] => []
    | latest :: _ =>
      if latest.netValue ≤ 0 then []
      else periodsDays.filterMap (periodEntry history now latest)

/-! From `src/src/api/fund.ts` (`calculateBuyFee`) and
`src/unnamed/part_006` (the add-holding form's computed properties):
front-load fee and share computation. -/

/-- The non-function fields returned by `calculateBuyFee`: the fee rounded
to cents, and the actual purchase amount. Note the source subtracts the
UNROUNDED fee from the amount; only the reported `fee` field is rounded. -/
structure BuyFeeResult where
  fee : ℚ
  actualAmount : ℚ
deriving DecidableEq, Repr

/-- `calculateBuyFee(amount, feeRate, deduct)` from `src/src/api/fund.ts`. -/
def calculateBuyFee (amount feeRate : ℚ) (deduct : Bool) : BuyFeeResult :=
  let fee := amount * (feeRate / 100)
  { fee := round2 fee
    actualAmount := if deduct then amount - fee else amount }

/-- The `calculateShares` closure returned by `calculateBuyFee`:
`actualAmount / nv`. -/
def calculateBuyFeeShares (amount feeRate : ℚ) (deduct : Bool) (nv : ℚ) : ℚ :=
  (calculateBuyFee amount feeRate deduct).actualAmount / nv

/-- `buyFeeAmount` computed property of the add-holding form
(`src/unnamed/part_006`): zero unless an A-class purchase with fee
deduction enabled, otherwise the fee rounded to cents. -/
def buyFeeAmount (shareClass : String) (deduct : Bool) (amount feeRate : ℚ) : ℚ :=
  if shareClass ≠ "A" ∨ deduct = false then 0
  else round2 (amount * (feeRate / 100))

/-- `actualBuyAmount` computed property: the amount actually used to buy,
net of the (rounded) front-load fee when it is deducted. -/
def actualBuyAmount (shareClass : String) (deduct : Bool) (amount feeRate : ℚ) : ℚ :=
  if shareClass = "A" ∧ deduct = true then
    amount - buyFeeAmount shareClass deduct amount feeRate
  else amount

/-- `calculatedShares` computed property: `actualBuyAmount / netValue`,
zero when either operand is non-positive. -/
def calculatedShares (shareClass : String) (deduct : Bool)
    (amount feeRate netValue : ℚ) : ℚ :=
  if actualBuyAmount shareClass deduct amount feeRate ≤ 0 ∨ netValue ≤ 0 then 0
  else actualBuyAmount shareClass deduct amount feeRate / netValue

/-! From `src/unnamed/part_011` (`fetchFundEstimateFast`) and
`src/src/api/tiantianApi.ts` (`persistCache`): the estimate fetch with its
memory-cache, persisted-cache and trading-hours fallback logic. The
asynchronous JSONP machinery is modelled by its observable outcome: the
live request either delivers a payload, fails to load (script error), or
hits the 8-second timeout. -/

/-- A fund estimate as delivered by the valuation endpoint. The numeric
fields stand for the `parseFloat(x) || 0` parse of the wire strings. -/
structure FundEstimate where
  name : String
  gsz : ℚ
  dwjz : ℚ
  gszzl : String
deriving DecidableEq, Repr

/-- Observable outcome of the live JSONP request. -/
inductive LiveFetch where
  | success (data : FundEstimate)
  | scriptError
  | timeout
deriving DecidableEq, Repr

/-- Observable result of `fetchFundEstimateFast`: how the promise settles,
and whether a live request was issued at all. -/
structure FetchResult where
  result : Except String FundEstimate
  liveFetched : Bool
deriving Repr

/-- `fetchFundEstimateFast(code)` as a function of the relevant state for
one code: the memory-cache entry, the persisted-store entry, whether it is
trading time, and the live-request outcome. Mirrors the source: a memory
cache hit resolves immediately; outside trading hours a persisted value
resolves without a live request; otherwise the live request runs, and on
script error or timeout the persisted value (if any) resolves in place of
the error. -/
def fetchFundEstimateFast (memCached persisted : Option FundEstimate)
    (trading : Bool) (live : LiveFetch) : FetchResult :=
  match memCached with
  | some c => ⟨.ok c, false⟩
  | none =>
    match trading, persisted with
    | false, some p => ⟨.ok p, false⟩
    | _, _ =>
      match live with
      | .success d => ⟨.ok d, true⟩
      | .scriptError =>
        match persisted with
        | some p => ⟨.ok p, true⟩
        | none => ⟨.error "load failed", true⟩
      | .timeout =>
        match persisted with
        | some p => ⟨.ok p, true⟩
        | none => ⟨.error "timed out", true⟩

/-! From `src/unnamed/part_012` (`updateHoldingWithEstimate` of the holding
store): recomputation of a holding's derived fields from a fresh estimate.
Optional JavaScript fields are `Option`s; the derived fields start as
`none` (`undefined`). -/

/-- A holding row of the store (persisted `HoldingRecord` fields plus the
transient `HoldingWithProfit` fields). -/
structure Holding where
  code : String
  name : String
  shareClass : String
  amount : ℚ
  buyNetValue : ℚ
  shares : ℚ
  holdingDays : Option Int
  serviceFeeRate : Option ℚ
  currentValue : Option ℚ
  marketValue : Option ℚ
  profit : Option ℚ
  profitRate : Option ℚ
  todayChange : Option String
  todayProfit : Option ℚ
  serviceFeeDeducted : Option ℚ
  loading : Bool
deriving DecidableEq, Repr

/-- JavaScript truthiness of the optional `serviceFeeRate` field
(`undefined` and `0` are falsy). -/
def feeRateTruthy (o : Option ℚ) : Bool :=
  match o with
  | some r => decide (r ≠ 0)
  | none => false

/-- The `currentValue` local of `updateHoldingWithEstimate`: the live
estimate (`gsz`) when positive, else the last published close (`dwjz`). -/
def currentValueOf (data : FundEstimate) : ℚ :=
  if 0 < data.gsz then data.gsz else data.dwjz

/-- The body that `updateHoldingWithEstimate` assigns to
`holdings[index]`: if even the fallback net value is non-positive only
`name` and `loading` change; otherwise the derived fields are recomputed
(re-deriving `shares` from the buy amount when non-positive, accruing
C-class service fees over the holding days). -/
def updateOne (holding : Holding) (data : FundEstimate) : Holding :=
  let currentValue := currentValueOf data
  if currentValue ≤ 0 then
    { holding with
      name := if data.name ≠ "" then data.name else holding.name
      loading := false }
  else
    let shares :=
      if holding.shares ≤ 0 then
        let buyNav := if 0 < holding.buyNetValue then holding.buyNetValue
                      else currentValue
        holding.amount / buyNav
      else holding.shares
    let marketValue := shares * currentValue
    let cost := holding.amount
    let totalServiceFee :=
      if holding.shareClass = "C" ∧ feeRateTruthy holding.serviceFeeRate = true then
        let days := holding.holdingDays.getD 0
        if 0 < days then
          calculateDailyServiceFee shares currentValue
            (holding.serviceFeeRate.getD 0) * (days : ℚ)
        else 0
      else 0
    let profit := marketValue - cost - totalServiceFee
    let profitRate := if 0 < cost then profit / cost * 100 else 0
    let todayProfit := shares * (currentValue - data.dwjz) -
      (if holding.shareClass = "C" ∧ feeRateTruthy holding.serviceFeeRate = true then
        calculateDailyServiceFee shares currentValue (holding.serviceFeeRate.getD 0)
      else 0)
    { holding with
      name := if data.name ≠ "" then data.name else holding.name
      currentValue := some currentValue
      marketValue := some marketValue
      profit := some profit
      profitRate := some profitRate
      todayChange := some data.gszzl
      todayProfit := some todayProfit
      loading := false
      shares := shares
      serviceFeeDeducted :=
        if holding.shareClass = "C" then some totalServiceFee else none }

/-- `updateHoldingWithEstimate(code, data)`: locate the first holding with
the code (`findIndex`), return the list unchanged when absent, else replace
that one row with its recomputation. -/
def updateHoldingWithEstimate (holdings : List Holding) (code : String)
    (data : FundEstimate) : List Holding :=
  match holdings.findIdx? (fun h => decide (h.code = code)) with
  | none => holdings
  | some index =>
    match holdings[index]? with
    | none => holdings
    | some holding => holdings.set index (updateOne holding data)

/-- Every field of a holding other than `name` and `loading`, for the
frame property. -/
def holdingCore (h : Holding) :=
  (h.code, h.shareClass, h.amount, h.buyNetValue, h.shares, h.holdingDays,
   h.serviceFeeRate, h.currentValue, h.marketValue, h.profit, h.profitRate,
   h.todayChange, h.todayProfit, h.serviceFeeDeducted)

/-! From `src/src/components/OKXChart.vue` (`filteredData`, live/current-day
branch): merge of the recent history with the live estimate. A point's
`time` is an integer day index as for `NetValueRecord`. The display-only
simulated `volume` decoration (`50 + |change|*30 + (i % 5)*10`) is not
modelled: no claim concerns it and it touches no other field. -/

/-- One point of the chart series (`SimpleKLineData`). -/
structure KPoint where
  time : Int
  value : ℚ
  change : ℚ
deriving DecidableEq, Repr

/-- The `data` local of the live/current-day branch: the chart history
restricted to the last two days. -/
def intradayData (chartData : List KPoint) (today : Int) : List KPoint :=
  chartData.filter (fun it => decide (today - 2 ≤ it.time))

/-- The live/current-day branch of the `filteredData` computed property:
with a positive live estimate, today's point is overwritten with the
estimate if present, else a synthetic today point is appended; an empty
result is replaced by a single placeholder point valued
`lastClose || realtimeValue || 1`. -/
def intradayFiltered (chartData : List KPoint) (today : Int)
    (realtimeValue realtimeChange lastClose : ℚ) : List KPoint :=
  let data := intradayData chartData today
  let hasTodayData := data.any (fun d => decide (d.time = today))
  let data2 :=
    if hasTodayData = false ∧ 0 < realtimeValue then
      data ++ [⟨today, realtimeValue, realtimeChange⟩]
    else if hasTodayData = true ∧ 0 < realtimeValue then
      data.map (fun d =>
        if d.time = today then
          { d with value := realtimeValue, change := realtimeChange }
        else d)
    else data
  if data2.length = 0 then
    [⟨today,
      if lastClose ≠ 0 then lastClose
      else if realtimeValue ≠ 0 then realtimeValue else 1, 0⟩]
  else data2

end FundApp

namespace FundApp

/-- A list pairwise-distinct under `f` holds at most one element with a
given `f`-image. -/
theorem countP_le_one_of_pairwise_ne {α : Type} (f : α → Int) (c : Int)
    (l : List α) (hp : l.Pairwise (fun a b => f a ≠ f b)) :
    l.countP (fun x => decide (f x = c)) ≤ 1 := by
  induction l with
  | nil => simp
  | cons a t ih =>
    rw [List.countP_cons]
    rcases List.pairwise_cons.mp hp with ⟨ha, ht⟩
    by_cases hc : f a = c
    · have h0 : t.countP (fun x => decide (f x = c)) = 0 := by
        rw [List.countP_eq_zero]
        intro x hx
        simp only [decide_eq_true_eq]
        intro hxc
        exact ha x hx (hc.trans hxc.symm)
      simp [h0, hc]
    · simpa [hc] using ih ht

/-- A successful `List.find?` splits the list into a prefix on which the
predicate is false, the found element, and a suffix. -/
theorem find?_eq_some_split {α : Type} {p : α → Bool} {l : List α} {a : α}
    (h : l.find? p = some a) :
    ∃ pre post, l = pre ++ a :: post ∧ ∀ x ∈ pre, p x = false := by
  induction l with
  | nil => simp at h
  | cons b t ih =>
    rcases hb : p b with _ | _
    · simp only [List.find?_cons, hb] at h
      obtain ⟨pre, post, hl, hp⟩ := ih h
      refine ⟨b :: pre, post, by rw [hl]; rfl, ?_⟩
      intro x hx
      rcases List.mem_cons.mp hx with h1 | h2
      · rw [h1]; exact hb
      · exact hp x h2
    · simp only [List.find?_cons, hb] at h
      obtain rfl : b = a := Option.some.inj h
      exact ⟨[], t, rfl, by intro x hx; simp at hx⟩

/-- C2: `calculateDailyServiceFee` computes the raw fee
`shares * netValue * (annualRate / 365 / 100)`, returns 0.01 exactly on the
open interval (0, 0.01) and otherwise the raw fee rounded to two decimals;
the inputs shares=1000, netValue=1.5, annualRate=0.4 give 0.02; and the
function is deterministic. -/
theorem calculateDailyServiceFee_spec :
    (∀ shares netValue annualRate : ℚ,
      calculateDailyServiceFee shares netValue annualRate =
        (let raw := shares * netValue * (annualRate / 365 / 100)
         if 0 < raw ∧ raw < 1/100 then 1/100 else round2 raw))
    ∧ calculateDailyServiceFee 1000 (3/2) (2/5) = 2/100
    ∧ (∀ shares netValue annualRate : ℚ,
      calculateDailyServiceFee shares netValue annualRate =
        calculateDailyServiceFee shares netValue annualRate) := by
  refine ⟨?_, by norm_num [calculateDailyServiceFee, round2, round_eq], fun _ _ _ => rfl⟩
  intro shares netValue annualRate
  simp only [calculateDailyServiceFee]
  rw [if_congr and_comm rfl rfl]

/-- C3: after `set(key, v, ttl)` at time `t0`, a `get(key)` at time `t1`
returns `v` while the elapsed time `t1 - t0` is at most `ttl` and returns
`none` once more than `ttl` has elapsed; expiry depends only on the
per-entry wall-clock timestamps, and `set` touches no other key (no LRU
eviction, no capacity bound). -/
theorem cache_ttl_spec {α : Type} (s : CacheState α) (key : String) (v : α)
    (t0 ttlMs t1 : Int) :
    (t1 - t0 ≤ ttlMs → cacheGet (cacheSet s key v t0 ttlMs) key t1 = some v)
    ∧ (ttlMs < t1 - t0 → cacheGet (cacheSet s key v t0 ttlMs) key t1 = none)
    ∧ (∀ k, k ≠ key → cacheSet s key v t0 ttlMs k = s k) := by
  refine ⟨fun h => ?_, fun h => ?_, fun k hk => ?_⟩
  · simp [cacheGet, cacheSet, not_lt.mpr h]
  · simp [cacheGet, cacheSet, h]
  · simp [cacheSet, hk]

/-- Witness for C3 at a concrete state: key "estimate_000001", value 7,
set at time 0 with ttl 800; a get at time 800 hits, a get at time 801
misses, and an unrelated key is untouched. -/
theorem cache_ttl_spec_witness :
    cacheGet (cacheSet (fun _ => none) "estimate_000001" (7 : Nat) 0 800)
        "estimate_000001" 800 = some 7
    ∧ cacheGet (cacheSet (fun _ => none) "estimate_000001" (7 : Nat) 0 800)
        "estimate_000001" 801 = none
    ∧ cacheSet (fun _ => none) "estimate_000001" (7 : Nat) 0 800 "other"
        = (fun _ => none : CacheState Nat) "other" :=
  ⟨(cache_ttl_spec _ _ _ _ _ _).1 (by decide),
   (cache_ttl_spec _ _ _ _ _ _).2.1 (by decide),
   (cache_ttl_spec (fun _ => none) "estimate_000001" 7 0 800 801).2.2
     "other" (by decide)⟩

/-- C6: `isTradingTime` depends only on the day-of-week and time-of-day
passed to it (it is a pure function of those arguments, with no holiday
calendar), and for any in-range minute it returns `true` exactly when the
day is Monday (1) through Friday (5) and the time of day lies in the
half-open window [9:30, 15:00). -/
theorem isTradingTime_spec (day hour minute : Nat) (hm : minute < 60) :
    isTradingTime day hour minute = true ↔
      (1 ≤ day ∧ day ≤ 5)
        ∧ 570 ≤ 60 * hour + minute ∧ 60 * hour + minute < 900 := by
  simp only [isTradingTime, Bool.and_eq_true, Bool.or_eq_true,
    decide_eq_true_eq]
  omega

/-- Witness for C6: Wednesday 10:00 is inside the trading window. -/
theorem isTradingTime_spec_witness : isTradingTime 3 10 0 = true :=
  (isTradingTime_spec 3 10 0 (by decide)).mpr (by decide)

/-- C9 as stated is false: on the flat single-point series `[1]` the code's
margin is 0.01 (the JavaScript `|| 0.01` fallback), not 10% of
`max - min = 0`; the rendered range is `[0.99, 1.01]`, not `[1, 1]`. -/
theorem yAxisRange_counterexample :
    yAxisRange [(1 : ℚ)] = some (1 - 1/100, 1 + 1/100)
    ∧ yAxisRange [(1 : ℚ)] ≠
        some (1 - (1 - 1) * (1/10), 1 + (1 - 1) * (1/10)) := by
  constructor
  · simp [yAxisRange, List.min?, List.max?]
  · simp [yAxisRange, List.min?, List.max?]

/-- C9 amended: for every non-empty display series the Y-axis range is
`[min - m, max + m]` where `m` is 10% of `max - min` whenever the series is
not flat (`min < max`); for a flat series (`min = max`) the margin is the
fixed fallback 0.01. -/
theorem yAxisRange_spec (values : List ℚ) (minValue maxValue : ℚ)
    (hmin : values.min? = some minValue) (hmax : values.max? = some maxValue)
    (hle : minValue ≤ maxValue) :
    yAxisRange values =
      some (minValue - (if minValue < maxValue
                        then (maxValue - minValue) * (1/10) else 1/100),
            maxValue + (if minValue < maxValue
                        then (maxValue - minValue) * (1/10) else 1/100)) := by
  simp only [yAxisRange, hmin, hmax]
  by_cases h : minValue < maxValue
  · have hne : (maxValue - minValue) * (1/10) ≠ 0 := by
      have : 0 < maxValue - minValue := by linarith
      positivity
    simp only [hne, if_false, h, if_true]
  · have heq : minValue = maxValue := le_antisymm hle (not_lt.mp h)
    subst heq
    simp

/-- C1 as stated is false: the calculator returns the empty list for any
history with fewer than two records, so a single-record history dated 10
days ago has a record at or before (now − 7 days) yet yields no 7-day
entry. -/
theorem calculatePeriodReturns_counterexample :
    ¬ ((∃ e ∈ calculatePeriodReturns [⟨-10, 1⟩] 0, e.days = 7) ↔
        ∃ r ∈ [(⟨-10, 1⟩ : NetValueRecord)], r.date ≤ 0 - 7) := by
  intro h
  have h2 : ∃ r ∈ [(⟨-10, 1⟩ : NetValueRecord)], r.date ≤ 0 - 7 := by decide
  have h3 := h.mpr h2
  simp [calculatePeriodReturns] at h3

/-- C1 amended: for a history of at least two records whose net values are
all positive, and any window `w` of the lookback table, the result holds an
entry for `w` exactly when the history has a record dated at or before
`now - w`; and any entry for `w` carries the change
`(latest - found) / found * 100` rounded to two decimals, where `latest` is
the history's first (most recent) record and `found` is the
first-encountered record at or before the target date (every record listed
before it being dated after the target); entries for windows with no
qualifying record are simply absent, never zero-filled. -/
theorem calculatePeriodReturns_spec (history : List NetValueRecord)
    (now w : Int) (hlen : 2 ≤ history.length)
    (hpos : ∀ r ∈ history, 0 < r.netValue) (hw : w ∈ periodsDays) :
    ((∃ e ∈ calculatePeriodReturns history now, e.days = w) ↔
      ∃ r ∈ history, r.date ≤ now - w)
    ∧ (∀ e ∈ calculatePeriodReturns history now, e.days = w →
        ∃ latest pre found post,
          history.head? = some latest
          ∧ history = pre ++ found :: post
          ∧ found.date ≤ now - w
          ∧ (∀ r ∈ pre, ¬ (r.date ≤ now - w))
          ∧ e.change =
              round2 ((latest.netValue - found.netValue) / found.netValue * 100)) := by
  cases history with
  | nil => simp at hlen
  | cons latest t =>
    have hlpos : 0 < latest.netValue := hpos latest (List.mem_cons_self _ _)
    have hnotlt : ¬ (latest :: t).length < 2 := not_lt.mpr hlen
    have hres : calculatePeriodReturns (latest :: t) now =
        periodsDays.filterMap (periodEntry (latest :: t) now latest) := by
      simp only [calculatePeriodReturns, if_neg hnotlt, if_neg (not_le.mpr hlpos)]
    constructor
    · rw [hres]
      constructor
      · rintro ⟨e, he, hdays⟩
        obtain ⟨w', hw', hentry⟩ := List.mem_filterMap.mp he
        unfold periodEntry at hentry
        rcases hfind : (latest :: t).find? (fun r => decide (r.date ≤ now - w'))
          with _ | found
        · rw [hfind] at hentry; simp at hentry
        · rw [hfind] at hentry
          replace hentry : (if 0 < found.netValue then
              some (⟨w', round2 ((latest.netValue - found.netValue)
                / found.netValue * 100)⟩ : PeriodReturn)
            else none) = some e := hentry
          by_cases hfp : 0 < found.netValue
          · rw [if_pos hfp] at hentry
            have he2 := Option.some.inj hentry
            have hww : w' = w := by rw [← hdays, ← he2]
            subst hww
            refine ⟨found, List.mem_of_find?_eq_some hfind, ?_⟩
            simpa using List.find?_some hfind
          · rw [if_neg hfp] at hentry; simp at hentry
      · rintro ⟨r, hr, hle⟩
        have hsome : ((latest :: t).find?
            (fun r => decide (r.date ≤ now - w))).isSome :=
          List.find?_isSome.mpr ⟨r, hr, by simpa using hle⟩
        obtain ⟨found, hfind⟩ := Option.isSome_iff_exists.mp hsome
        have hfpos := hpos found (List.mem_of_find?_eq_some hfind)
        refine ⟨⟨w, round2 ((latest.netValue - found.netValue)
          / found.netValue * 100)⟩, ?_, rfl⟩
        apply List.mem_filterMap.mpr
        refine ⟨w, hw, ?_⟩
        unfold periodEntry
        rw [hfind]
        show (if 0 < found.netValue then
            some (⟨w, round2 ((latest.netValue - found.netValue)
              / found.netValue * 100)⟩ : PeriodReturn)
          else none) = _
        rw [if_pos hfpos]
    · rw [hres]
      rintro e he hdays
      obtain ⟨w', hw', hentry⟩ := List.mem_filterMap.mp he
      unfold periodEntry at hentry
      rcases hfind : (latest :: t).find? (fun r => decide (r.date ≤ now - w'))
        with _ | found
      · rw [hfind] at hentry; simp at hentry
      · rw [hfind] at hentry
        replace hentry : (if 0 < found.netValue then
            some (⟨w', round2 ((latest.netValue - found.netValue)
              / found.netValue * 100)⟩ : PeriodReturn)
          else none) = some e := hentry
        by_cases hfp : 0 < found.netValue
        · rw [if_pos hfp] at hentry
          have he2 := Option.some.inj hentry
          have hww : w' = w := by rw [← hdays, ← he2]
          subst hww
          obtain ⟨pre, post, hsplit, hpre⟩ := find?_eq_some_split hfind
          refine ⟨latest, pre, found, post, rfl, hsplit, ?_, ?_, ?_⟩
          · simpa using List.find?_some hfind
          · intro r hrp
            simpa using hpre r hrp
          · rw [← he2]
        · rw [if_neg hfp] at hentry; simp at hentry

/-- Witness for C1 amended, on the spec's own example shifted to integer
net values: history `[(d0, 2), (d-7, 1)]` (newest first) seen from `now =
d0` yields an entry for the 7-day window. -/
theorem calculatePeriodReturns_spec_witness :
    ∃ e ∈ calculatePeriodReturns [⟨0, 2⟩, ⟨-7, 1⟩] 0, e.days = 7 :=
  (calculatePeriodReturns_spec [⟨0, 2⟩, ⟨-7, 1⟩] 0 7 (by decide) (by decide)
    (by decide)).1.mpr ⟨⟨-7, 1⟩, by decide, by decide⟩

/-- Witness for C9 amended: the series `[1, 2]` gets a margin of
`(2 - 1) * 0.1 = 0.1` on each side. -/
theorem yAxisRange_spec_witness :
    yAxisRange [(1 : ℚ), 2] =
      some (1 - (if (1:ℚ) < 2 then ((2:ℚ) - 1) * (1/10) else 1/100),
            2 + (if (1:ℚ) < 2 then ((2:ℚ) - 1) * (1/10) else 1/100)) :=
  yAxisRange_spec [(1 : ℚ), 2] 1 2 (by simp [List.min?]) (by simp [List.max?])
    (by decide)

/-- C7: for a positive net value and a positive effective purchase amount
(the amount net of the front-load fee when deduction applies), the form's
computed shares equal `effectiveAmount / netValue`, multiplying back by the
net value reconstructs the effective amount exactly (the rational model's
rendering of "within floating-point tolerance"), and the
`calculateShares` closure of `calculateBuyFee` satisfies the same
reconstruction identity; the effective amount is the raw amount reduced by
the (rounded) fee exactly when an A-class purchase deducts the fee. -/
theorem calculatedShares_spec (shareClass : String) (deduct : Bool)
    (amount feeRate netValue : ℚ) (hnv : 0 < netValue)
    (hact : 0 < actualBuyAmount shareClass deduct amount feeRate) :
    calculatedShares shareClass deduct amount feeRate netValue =
        actualBuyAmount shareClass deduct amount feeRate / netValue
    ∧ calculatedShares shareClass deduct amount feeRate netValue * netValue =
        actualBuyAmount shareClass deduct amount feeRate
    ∧ calculateBuyFeeShares amount feeRate deduct netValue * netValue =
        (calculateBuyFee amount feeRate deduct).actualAmount
    ∧ actualBuyAmount shareClass deduct amount feeRate =
        (if shareClass = "A" ∧ deduct = true then
          amount - round2 (amount * (feeRate / 100)) else amount) := by
  have hne : netValue ≠ 0 := ne_of_gt hnv
  have hnot : ¬ (actualBuyAmount shareClass deduct amount feeRate ≤ 0
      ∨ netValue ≤ 0) := by
    push_neg
    exact ⟨hact, hnv⟩
  refine ⟨?_, ?_, ?_, ?_⟩
  · simp [calculatedShares, hnot]
  · simp only [calculatedShares, if_neg hnot]
    exact div_mul_cancel₀ _ hne
  · simp only [calculateBuyFeeShares]
    exact div_mul_cancel₀ _ hne
  · by_cases hA : shareClass = "A" ∧ deduct = true
    · have hA2 : ¬ (shareClass ≠ "A" ∨ deduct = false) := by
        push_neg
        refine ⟨hA.1, ?_⟩
        rw [hA.2]
        simp
      simp [actualBuyAmount, buyFeeAmount, hA, hA2]
    · simp [actualBuyAmount, hA]

/-- Witness for C7: a C-class purchase of 100 at net value 5 (no front-load
fee applies) computes shares that reconstruct the amount: `20 * 5 = 100`. -/
theorem calculatedShares_spec_witness :
    calculatedShares "C" true 100 15 5 * 5 = actualBuyAmount "C" true 100 15 :=
  (calculatedShares_spec "C" true 100 15 5 (by decide) (by decide)).2.1

/-- C4 as stated is false on a reachable memory-cache state: with a live
in-memory cache entry, `fetchFundEstimateFast` resolves with the cached
value (and issues no live fetch), not with the persisted value, even
outside trading hours with a persisted value present. -/
theorem fetchFundEstimateFast_counterexample :
    fetchFundEstimateFast (some ⟨"f", 1, 1, "a"⟩) (some ⟨"f", 2, 2, "b"⟩)
        false .timeout =
      ⟨.ok ⟨"f", 1, 1, "a"⟩, false⟩
    ∧ (⟨"f", 1, 1, "a"⟩ : FundEstimate) ≠ ⟨"f", 2, 2, "b"⟩ := by
  exact ⟨rfl, by decide⟩

/-- C4 amended: for every state whose persisted store holds a value `p`
for the code, `fetchFundEstimateFast` never propagates an error; when
additionally the memory cache has no entry, outside trading hours it
resolves with `p` without issuing a live fetch, and during trading hours it
resolves with `p` whenever the live fetch fails (script error) or times
out. (A fresh memory-cache entry, when present, resolves first.) It can
reject only when no persisted value exists. -/
theorem fetchFundEstimateFast_spec (memCached persisted : Option FundEstimate)
    (trading : Bool) (live : LiveFetch) (p : FundEstimate)
    (hp : persisted = some p) :
    (∃ v, (fetchFundEstimateFast memCached persisted trading live).result = .ok v)
    ∧ (memCached = none → trading = false →
        fetchFundEstimateFast memCached persisted trading live = ⟨.ok p, false⟩)
    ∧ (memCached = none → trading = true →
        (live = .scriptError ∨ live = .timeout) →
        (fetchFundEstimateFast memCached persisted trading live).result = .ok p) := by
  subst hp
  refine ⟨?_, ?_, ?_⟩
  · cases memCached with
    | some c => exact ⟨c, rfl⟩
    | none =>
      cases trading with
      | false => exact ⟨p, rfl⟩
      | true =>
        cases live with
        | success d => exact ⟨d, rfl⟩
        | scriptError => exact ⟨p, rfl⟩
        | timeout => exact ⟨p, rfl⟩
  · rintro rfl rfl
    rfl
  · rintro rfl rfl (rfl | rfl) <;> rfl

/-- Witness for C4 amended: no memory-cache entry, outside trading hours,
persisted value present: the persisted value resolves with no live fetch. -/
theorem fetchFundEstimateFast_spec_witness :
    fetchFundEstimateFast none (some ⟨"f", 1, 1, "a"⟩) false .timeout =
      ⟨.ok ⟨"f", 1, 1, "a"⟩, false⟩ :=
  (fetchFundEstimateFast_spec none (some ⟨"f", 1, 1, "a"⟩) false .timeout
    ⟨"f", 1, 1, "a"⟩ rfl).2.1 rfl rfl

/-- C8 as stated is false on the empty-history case: with an empty filtered
history, a positive live estimate 2 and a known last close 1, the code
returns the single synthetic today point carrying the LIVE estimate, not
the last-known close that the claim's fallback order prescribes. -/
theorem intradayFiltered_counterexample :
    intradayFiltered [] 0 2 0 1 = [⟨0, 2, 0⟩]
    ∧ ((⟨0, 2, 0⟩ : KPoint).value ≠ 1) := by
  refine ⟨?_, by norm_num⟩
  rfl

/-- C8 amended: assuming the chart history has pairwise-distinct dates,
in the live/current-day selection with a positive live estimate the result
holds exactly one point dated today and every today point carries the live
estimate; structurally, the today point of the filtered history is
overwritten when present and a synthetic today point is appended at the end
otherwise (so an empty filtered history with a positive estimate yields the
single synthetic live point, not the last-close fallback); only when the
filtered history is empty AND the live estimate is not positive does the
result become the single placeholder point valued
`lastClose || realtimeValue || 1`; the result is never the empty list. -/
theorem intradayFiltered_spec (chartData : List KPoint) (today : Int)
    (rv rc lastClose : ℚ)
    (hdistinct : chartData.Pairwise (fun a b => a.time ≠ b.time)) :
    (0 < rv →
      (intradayFiltered chartData today rv rc lastClose).countP
          (fun d => decide (d.time = today)) = 1
      ∧ ∀ d ∈ intradayFiltered chartData today rv rc lastClose,
          d.time = today → d.value = rv)
    ∧ (0 < rv →
        (intradayData chartData today).any (fun d => decide (d.time = today))
            = false →
        intradayFiltered chartData today rv rc lastClose =
          intradayData chartData today ++ [⟨today, rv, rc⟩])
    ∧ (0 < rv →
        (intradayData chartData today).any (fun d => decide (d.time = today))
            = true →
        intradayFiltered chartData today rv rc lastClose =
          (intradayData chartData today).map (fun d =>
            if d.time = today then { d with value := rv, change := rc } else d))
    ∧ (intradayData chartData today = [] → ¬ 0 < rv →
        intradayFiltered chartData today rv rc lastClose =
          [⟨today, if lastClose ≠ 0 then lastClose
                   else if rv ≠ 0 then rv else 1, 0⟩])
    ∧ intradayFiltered chartData today rv rc lastClose ≠ [] := by
  have hdcount : (intradayData chartData today).countP
      (fun d => decide (d.time = today)) ≤ 1 :=
    countP_le_one_of_pairwise_ne (fun d : KPoint => d.time) today _
      (List.Pairwise.filter _ hdistinct)
  have happend : ∀ (hrv : 0 < rv),
      (intradayData chartData today).any (fun d => decide (d.time = today))
          = false →
      intradayFiltered chartData today rv rc lastClose =
        intradayData chartData today ++ [⟨today, rv, rc⟩] := by
    intro hrv hany
    simp only [intradayFiltered]
    have hcond : ((intradayData chartData today).any
        (fun d => decide (d.time = today))) = false ∧ 0 < rv := ⟨hany, hrv⟩
    rw [if_pos hcond]
    have hlen : ¬ ((intradayData chartData today
        ++ [(⟨today, rv, rc⟩ : KPoint)]).length = 0) := by simp
    rw [if_neg hlen]
  have hmap : ∀ (hrv : 0 < rv),
      (intradayData chartData today).any (fun d => decide (d.time = today))
          = true →
      intradayFiltered chartData today rv rc lastClose =
        (intradayData chartData today).map (fun d =>
          if d.time = today then { d with value := rv, change := rc }
          else d) := by
    intro hrv hany
    have hne : intradayData chartData today ≠ [] := by
      intro h0
      rw [h0] at hany
      simp at hany
    simp only [intradayFiltered]
    have hcond1 : ¬ (((intradayData chartData today).any
        (fun d => decide (d.time = today))) = false ∧ 0 < rv) := by
      rw [hany]
      rintro ⟨h1, _⟩
      exact absurd h1 (by simp)
    rw [if_neg hcond1]
    have hcond2 : ((intradayData chartData today).any
        (fun d => decide (d.time = today))) = true ∧ 0 < rv := ⟨hany, hrv⟩
    rw [if_pos hcond2]
    have hlen2 : ¬ (((intradayData chartData today).map (fun d =>
        if d.time = today then { d with value := rv, change := rc }
        else d)).length = 0) := by
      rw [List.length_map, List.length_eq_zero]
      exact hne
    rw [if_neg hlen2]
  refine ⟨?_, happend, hmap, ?_, ?_⟩
  · intro hrv
    cases hany : (intradayData chartData today).any
        (fun d => decide (d.time = today)) with
    | false =>
      rw [happend hrv hany]
      have hz : (intradayData chartData today).countP
          (fun d => decide (d.time = today)) = 0 := by
        rw [List.countP_eq_zero]
        intro x hx
        exact (List.any_eq_false.mp hany) x hx
      constructor
      · rw [List.countP_append, hz]
        simp
      · intro d hd htoday
        rcases List.mem_append.mp hd with hmem | hmem
        · exfalso
          exact (List.any_eq_false.mp hany) d hmem (by simpa using htoday)
        · have : d = ⟨today, rv, rc⟩ := by simpa using hmem
          rw [this]
    | true =>
      rw [hmap hrv hany]
      have hcnt : ((intradayData chartData today).map (fun d =>
          if d.time = today then { d with value := rv, change := rc }
          else d)).countP (fun d => decide (d.time = today)) =
          (intradayData chartData today).countP
            (fun d => decide (d.time = today)) := by
        rw [List.countP_map]
        apply List.countP_congr
        intro x hx
        by_cases h : x.time = today
        · simp [Function.comp, h]
        · simp [Function.comp, h]
      have hpos : 0 < (intradayData chartData today).countP
          (fun d => decide (d.time = today)) := by
        rw [List.countP_pos_iff]
        obtain ⟨x, hx, hpx⟩ := List.any_eq_true.mp hany
        exact ⟨x, hx, hpx⟩
      constructor
      · rw [hcnt]
        omega
      · intro d hd htoday
        obtain ⟨x, hx, hfx⟩ := List.mem_map.mp hd
        by_cases h : x.time = today
        · rw [if_pos h] at hfx
          rw [← hfx]
        · rw [if_neg h] at hfx
          exfalso
          rw [← hfx] at htoday
          exact h htoday
  · intro hempty hnrv
    simp [intradayFiltered, hempty, hnrv]
  · have hgen : ∀ (l : List KPoint) (x : KPoint),
        (if l.length = 0 then [x] else l) ≠ [] := by
      intro l x
      by_cases h : l.length = 0
      · simp [h]
      · simp only [h, if_false]
        intro hc
        rw [hc] at h
        exact h rfl
    simp only [intradayFiltered]
    exact hgen _ _

/-- Witness for C8 amended: history `[(today, 1)]` with live estimate 2
yields exactly one today point. -/
theorem intradayFiltered_spec_witness :
    (intradayFiltered [⟨0, 1, 0⟩] 0 2 0 1).countP
        (fun d => decide (d.time = 0)) = 1 :=
  ((intradayFiltered_spec [⟨0, 1, 0⟩] 0 2 0 1 (by simp)).1 (by decide)).1

/-- A zero annual rate yields a zero daily service fee. -/
theorem calculateDailyServiceFee_rate_zero (s v : ℚ) :
    calculateDailyServiceFee s v 0 = 0 := by
  norm_num [calculateDailyServiceFee, round2]

/-- A falsy `serviceFeeRate` field reads back as rate 0. -/
theorem feeRateTruthy_false_getD {o : Option ℚ}
    (h : feeRateTruthy o = false) : o.getD 0 = 0 := by
  cases o with
  | none => rfl
  | some r =>
    simp only [feeRateTruthy, decide_eq_false_iff_not, not_not] at h
    simpa using h

/-- When both parsed net values are non-positive, the recomputed row only
touches `name` and `loading`. -/
theorem updateOne_skip (holding : Holding) (data : FundEstimate)
    (hg : data.gsz ≤ 0) (hd : data.dwjz ≤ 0) :
    updateOne holding data =
      { holding with
        name := if data.name ≠ "" then data.name else holding.name
        loading := false } := by
  have hcv : currentValueOf data ≤ 0 := by
    unfold currentValueOf
    rw [if_neg (not_lt.mpr hg)]
    exact hd
  simp only [updateOne, if_pos hcv]

/-- C5: on an estimate refresh of a holding with positive shares and a
positive effective net value (live estimate if positive, else last close),
the recomputed fields satisfy `marketValue = shares * currentValue`,
`profit = marketValue - cost - accumulatedTrailingFees` with the
accumulated fee equal to the daily trailing fee times the holding days for
C-class holdings and 0 otherwise, and
`todayProfit = shares * (currentValue - lastClose)` minus the one-day
trailing fee for C-class holdings. -/
theorem updateHoldingWithEstimate_profit_spec
    (holdings : List Holding) (code : String) (data : FundEstimate)
    (i : Nat) (h : Holding)
    (hidx : holdings.findIdx? (fun x => decide (x.code = code)) = some i)
    (hget : holdings[i]? = some h)
    (hshares : 0 < h.shares)
    (hcv : 0 < currentValueOf data)
    (hdays : 0 ≤ h.holdingDays.getD 0) :
    ∃ h2, (updateHoldingWithEstimate holdings code data)[i]? = some h2
      ∧ h2.marketValue = some (h.shares * currentValueOf data)
      ∧ h2.profit = some (h.shares * currentValueOf data - h.amount -
          (if h.shareClass = "C" then
            calculateDailyServiceFee h.shares (currentValueOf data)
              (h.serviceFeeRate.getD 0) * ((h.holdingDays.getD 0 : Int) : ℚ)
          else 0))
      ∧ h2.todayProfit = some (h.shares * (currentValueOf data - data.dwjz) -
          (if h.shareClass = "C" then
            calculateDailyServiceFee h.shares (currentValueOf data)
              (h.serviceFeeRate.getD 0)
          else 0)) := by
  have hres : updateHoldingWithEstimate holdings code data
      = holdings.set i (updateOne h data) := by
    simp only [updateHoldingWithEstimate, hidx, hget]
  have hilt : i < holdings.length := by
    by_contra hc
    rw [List.getElem?_eq_none (not_lt.mp hc)] at hget
    exact Option.noConfusion hget
  have hnotle : ¬ currentValueOf data ≤ 0 := not_le.mpr hcv
  have hnotshares : ¬ h.shares ≤ 0 := not_le.mpr hshares
  have hfee : (if h.shareClass = "C" ∧ feeRateTruthy h.serviceFeeRate = true then
        (if 0 < h.holdingDays.getD 0 then
          calculateDailyServiceFee h.shares (currentValueOf data)
            (h.serviceFeeRate.getD 0) * ((h.holdingDays.getD 0 : Int) : ℚ)
        else 0)
      else 0)
      = (if h.shareClass = "C" then
          calculateDailyServiceFee h.shares (currentValueOf data)
            (h.serviceFeeRate.getD 0) * ((h.holdingDays.getD 0 : Int) : ℚ)
        else 0) := by
    by_cases hC : h.shareClass = "C"
    · by_cases ht : feeRateTruthy h.serviceFeeRate = true
      · rw [if_pos ⟨hC, ht⟩, if_pos hC]
        by_cases hdpos : 0 < h.holdingDays.getD 0
        · rw [if_pos hdpos]
        · have hd0 : h.holdingDays.getD 0 = 0 :=
            le_antisymm (not_lt.mp hdpos) hdays
          rw [if_neg hdpos, hd0]
          norm_num
      · have hrate : h.serviceFeeRate.getD 0 = 0 := by
          apply feeRateTruthy_false_getD
          revert ht
          cases feeRateTruthy h.serviceFeeRate <;> simp
        rw [if_neg (fun hc => ht hc.2), if_pos hC, hrate,
          calculateDailyServiceFee_rate_zero]
        norm_num
    · rw [if_neg (fun hc => hC hc.1), if_neg hC]
  have hfee1 : (if h.shareClass = "C" ∧ feeRateTruthy h.serviceFeeRate = true then
        calculateDailyServiceFee h.shares (currentValueOf data)
          (h.serviceFeeRate.getD 0)
      else 0)
      = (if h.shareClass = "C" then
          calculateDailyServiceFee h.shares (currentValueOf data)
            (h.serviceFeeRate.getD 0)
        else 0) := by
    by_cases hC : h.shareClass = "C"
    · by_cases ht : feeRateTruthy h.serviceFeeRate = true
      · rw [if_pos ⟨hC, ht⟩, if_pos hC]
      · have hrate : h.serviceFeeRate.getD 0 = 0 := by
          apply feeRateTruthy_false_getD
          revert ht
          cases feeRateTruthy h.serviceFeeRate <;> simp
        rw [if_neg (fun hc => ht hc.2), if_pos hC, hrate,
          calculateDailyServiceFee_rate_zero]
    · rw [if_neg (fun hc => hC hc.1), if_neg hC]
  have hbody : updateOne h data =
      { h with
        name := if data.name ≠ "" then data.name else h.name
        currentValue := some (currentValueOf data)
        marketValue := some (h.shares * currentValueOf data)
        profit := some (h.shares * currentValueOf data - h.amount -
          (if h.shareClass = "C" ∧ feeRateTruthy h.serviceFeeRate = true then
            (if 0 < h.holdingDays.getD 0 then
              calculateDailyServiceFee h.shares (currentValueOf data)
                (h.serviceFeeRate.getD 0) * ((h.holdingDays.getD 0 : Int) : ℚ)
            else 0)
          else 0))
        profitRate := some (if 0 < h.amount then
          (h.shares * currentValueOf data - h.amount -
            (if h.shareClass = "C" ∧ feeRateTruthy h.serviceFeeRate = true then
              (if 0 < h.holdingDays.getD 0 then
                calculateDailyServiceFee h.shares (currentValueOf data)
                  (h.serviceFeeRate.getD 0) * ((h.holdingDays.getD 0 : Int) : ℚ)
              else 0)
            else 0)) / h.amount * 100
          else 0)
        todayChange := some data.gszzl
        todayProfit := some (h.shares * (currentValueOf data - data.dwjz) -
          (if h.shareClass = "C" ∧ feeRateTruthy h.serviceFeeRate = true then
            calculateDailyServiceFee h.shares (currentValueOf data)
              (h.serviceFeeRate.getD 0)
          else 0))
        loading := false
        shares := h.shares
        serviceFeeDeducted :=
          if h.shareClass = "C" then
            some (if h.shareClass = "C" ∧ feeRateTruthy h.serviceFeeRate = true then
              (if 0 < h.holdingDays.getD 0 then
                calculateDailyServiceFee h.shares (currentValueOf data)
                  (h.serviceFeeRate.getD 0) * ((h.holdingDays.getD 0 : Int) : ℚ)
              else 0)
            else 0)
          else none } := by
    simp only [updateOne, if_neg hnotle, if_neg hnotshares]
  refine ⟨updateOne h data, ?_, ?_, ?_, ?_⟩
  · rw [hres, List.getElem?_set]
    simp [hilt]
  · rw [hbody]
  · rw [hbody]
    simp only
    rw [hfee]
  · rw [hbody]
    simp only
    rw [hfee1]

/-- Witness for C5: a single C-class holding of 50 shares bought for 100,
with a 1% service-fee rate over 10 holding days, refreshed with a live
estimate of 2. -/
theorem updateHoldingWithEstimate_profit_spec_witness :
    ∃ h2, (updateHoldingWithEstimate
        [⟨"000001", "n", "C", 100, 1, 50, some 10, some 1, none, none, none,
          none, none, none, none, true⟩] "000001" ⟨"nm", 2, 1, "1.0"⟩)[0]?
        = some h2
      ∧ h2.marketValue = some ((50 : ℚ) * currentValueOf ⟨"nm", 2, 1, "1.0"⟩) := by
  obtain ⟨h2, hh2, hmv, _, _⟩ := updateHoldingWithEstimate_profit_spec
    [⟨"000001", "n", "C", 100, 1, 50, some 10, some 1, none, none, none,
      none, none, none, none, true⟩] "000001" ⟨"nm", 2, 1, "1.0"⟩ 0
    ⟨"000001", "n", "C", 100, 1, 50, some 10, some 1, none, none, none,
      none, none, none, none, true⟩
    (by decide) (by decide) (by decide) (by decide) (by decide)
  exact ⟨h2, hh2, hmv⟩

/-- C10: when neither the live estimate (`gsz`) nor the last close (`dwjz`)
parses to a positive number, the refresh leaves every field of the located
holding other than `name` and `loading` unchanged, and leaves every other
row of the list entirely unchanged. -/
theorem updateHoldingWithEstimate_frame_spec
    (holdings : List Holding) (code : String) (data : FundEstimate)
    (hg : data.gsz ≤ 0) (hd : data.dwjz ≤ 0) :
    (∀ j : Nat,
      ((updateHoldingWithEstimate holdings code data)[j]?).map holdingCore
        = (holdings[j]?).map holdingCore)
    ∧ (∀ j : Nat,
        holdings.findIdx? (fun x => decide (x.code = code)) ≠ some j →
        (updateHoldingWithEstimate holdings code data)[j]? = holdings[j]?) := by
  cases hidx : holdings.findIdx? (fun x => decide (x.code = code)) with
  | none =>
    constructor
    · intro j
      simp only [updateHoldingWithEstimate, hidx]
    · intro j _
      simp only [updateHoldingWithEstimate, hidx]
  | some index =>
    cases hget : holdings[index]? with
    | none =>
      constructor
      · intro j
        simp only [updateHoldingWithEstimate, hidx, hget]
      · intro j _
        simp only [updateHoldingWithEstimate, hidx, hget]
    | some holding =>
      have hres : updateHoldingWithEstimate holdings code data
          = holdings.set index (updateOne holding data) := by
        simp only [updateHoldingWithEstimate, hidx, hget]
      constructor
      · intro j
        rw [hres, List.getElem?_set]
        by_cases hj : index = j
        · subst hj
          have hilt : index < holdings.length := by
            by_contra hc
            rw [List.getElem?_eq_none (not_lt.mp hc)] at hget
            exact Option.noConfusion hget
          rw [if_pos rfl, if_pos hilt, hget,
            updateOne_skip holding data hg hd]
          rfl
        · rw [if_neg hj]
      · intro j hne
        have hjne : index ≠ j := fun hc => hne (congrArg some hc)
        rw [hres, List.getElem?_set, if_neg hjne]

/-- Witness for C10: one C-class holding, estimate payload with both values
parsed to 0: all fields but `name` and `loading` survive. -/
theorem updateHoldingWithEstimate_frame_spec_witness :
    ((updateHoldingWithEstimate
        [⟨"000001", "n", "C", 100, 1, 50, some 10, some 1, none, none, none,
          none, none, none, none, true⟩] "000001" ⟨"x", 0, 0, "0.00"⟩)[0]?).map
        holdingCore
      = (([⟨"000001", "n", "C", 100, 1, 50, some 10, some 1, none, none, none,
          none, none, none, none, true⟩] :
          List Holding)[0]?).map holdingCore :=
  (updateHoldingWithEstimate_frame_spec
    [⟨"000001", "n", "C", 100, 1, 50, some 10, some 1, none, none, none,
      none, none, none, none, true⟩] "000001" ⟨"x", 0, 0, "0.00"⟩
    (by decide) (by decide)).1 0

end FundApp
